import Mathlib

/-
Shallow embedding of the parametric-surface module
(manim/mobject/types/opengl_surface.py) and of the scale-function utility
(manim/utils/scale.py).

Conventions of the embedding:
* machine floats become exact rationals (geometry, colors) or reals (the
  logarithmic scale, whose round-trip law is an analytic fact);
* a numpy point array of shape (n, d) becomes a list of d-entry lists
  (type Vec below); an (nu, nv, d) array becomes a list of rows (type Grid);
* in-place numpy mutation becomes a pure function from the old buffer to the
  new one; the source method pointwise_become_partial only ever hands fresh
  copies (arr.copy()) to the in-place mutator get_partial_points_array, which
  the paired-state wrapper below makes explicit;
* Python exceptions become an Except value (type PyError below).
-/

/-- A single point / color / attribute record: one row of a 2-d numpy array. -/
abbrev Vec := List ℚ

/-- A (nu, nv, d) numpy array viewed as a list of nu rows of nv entries. -/
abbrev Grid := List (List Vec)

/-- Modelled from the spec: the linear interpolation used by the
partial-reveal engine ("the linear interpolation between the lower index and
its successor, weighted by the lower residue").  It lives in the bezier
utility module, which is outside the surface-module source. -/
def interpolate (x y t : ℚ) : ℚ := (1 - t) * x + t * y

/-- Entrywise interpolation of two points (numpy broadcast of interpolate). -/
def vinterp (p q : Vec) (t : ℚ) : Vec :=
  List.zipWith (fun x y => interpolate x y t) p q

/-- Rowwise interpolation of two grid rows (numpy broadcast of interpolate). -/
def rowInterp (r s : List Vec) (t : ℚ) : List Vec :=
  List.zipWith (fun p q => vinterp p q t) r s

/-- Modelled from the spec: the integer-interpolation scheme of the
partial-reveal engine (integer_interpolate of the bezier utility module,
outside the surface-module source).  A fraction alpha is mapped to the index
floor(lo + alpha*(hi-lo)) for alpha strictly between 0 and 1, clamped so that
the index and its successor both stay valid sample indices (per the design
notes, the upper index is clamped via interpolation), paired with a residue
used for sub-cell interpolation: the fractional part of alpha*(hi-lo) in the
interior, 0 at or below 0, and 1 at or above 1. -/
def integer_interpolate (start stop : ℕ) (alpha : ℚ) : ℕ × ℚ :=
  if 1 ≤ alpha then (stop - 1, 1)
  else if alpha ≤ 0 then (start, 0)
  else
    (⌊(start : ℚ) + alpha * ((stop : ℚ) - (start : ℚ))⌋.toNat,
     Int.fract (((stop : ℚ) - (start : ℚ)) * alpha))

/-- Dot product of two vectors (numpy dot on equal-length rows). -/
def dot (p q : Vec) : ℚ := (List.zipWith (fun x y => x * y) p q).sum

/-- numpy.linspace: num evenly spaced samples, inclusive of both endpoints. -/
def linspace (start stop : ℚ) (num : ℕ) : List ℚ :=
  if num ≤ 1 then (List.range num).map (fun _ => start)
  else
    (List.range num).map
      (fun (i : ℕ) => start + (stop - start) * (i : ℚ) / ((num : ℚ) - 1))

/-- numpy reshape of a flat (nu*nv, d) array to shape (nu, nv, d):
row i holds entries i*nv .. i*nv+nv-1 of the flat array. -/
def reshape2 (nu nv : ℕ) (pts : List Vec) : Grid :=
  (List.range nu).map (fun i => (List.range nv).map (fun j => pts.getD (i * nv + j) []))

/-- Row i of a grid. -/
def getRow (g : Grid) (i : ℕ) : List Vec := g.getD i []

/-- Entry (i, j) of a grid. -/
def entryAt (g : Grid) (i j : ℕ) : Vec := (g.getD i []).getD j []

/-- The state of an OpenGLSurface that the verified operations touch:
its resolution (nu, nv), its preferred creation axis (1 unless overridden)
and its flat point buffer. -/
structure Surface where
  resolution : ℕ × ℕ
  prefered_creation_axis : ℕ
  points : List Vec

/-- OpenGLSurface.uv_func: delegates to the function passed at construction,
and defaults to the flat plane (u, v, 0.0) when none was passed. -/
def uv_func (passed_uv_func : Option (ℚ → ℚ → Vec)) (u v : ℚ) : Vec :=
  match passed_uv_func with
  | some f => f u v
  | none => [u, v, 0]

/-- One of the three sampled point lists of OpenGLSurface.init_points:
the uv grid (u + du, v + dv) over linspace ranges, row-major with u as the
outer axis, pushed through the surface function. -/
def sample_grid (f : ℚ → ℚ → Vec) (u_range v_range : ℚ × ℚ) (nu nv : ℕ)
    (du dv : ℚ) : List Vec :=
  (linspace u_range.1 u_range.2 nu).flatMap
    (fun u => (linspace v_range.1 v_range.2 nv).map (fun v => f (u + du) (v + dv)))

/-- OpenGLSurface.init_points: the point buffer is the vstack of the pure
samples, the du-nudged samples and the dv-nudged samples. -/
def init_points (f : ℚ → ℚ → Vec) (u_range v_range : ℚ × ℚ) (nu nv : ℕ)
    (epsilon : ℚ) : List Vec :=
  sample_grid f u_range v_range nu nv 0 0 ++
    sample_grid f u_range v_range nu nv epsilon 0 ++
    sample_grid f u_range v_range nu nv 0 epsilon

/-- OpenGLSurface.compute_triangle_indices.  The source fills the strided
slices indices[r::6] (r = 0..5) of a 6*(nu-1)*(nv-1) array with the
flattened (nu-1)x(nv-1) corner subgrids of index_grid = arange(nu*nv)
reshaped to (nu, nv); entry 6*c+r of the result is therefore the corner
belonging to cell c = i*(nv-1)+j as written below (slot order: top-left,
bottom-left, top-right, top-right, bottom-left, bottom-right, where bottom
is +1 along u and right is +1 along v). -/
def compute_triangle_indices (nu nv : ℕ) : List ℕ :=
  if nu = 0 ∨ nv = 0 then []
  else
    (List.range (6 * ((nu - 1) * (nv - 1)))).map (fun t =>
      let c := t / 6
      let i := c / (nv - 1)
      let j := c % (nv - 1)
      if t % 6 = 0 then i * nv + j
      else if t % 6 = 1 then (i + 1) * nv + j
      else if t % 6 = 2 then i * nv + (j + 1)
      else if t % 6 = 3 then i * nv + (j + 1)
      else if t % 6 = 4 then (i + 1) * nv + j
      else (i + 1) * nv + (j + 1))

/-- OpenGLSurface.get_surface_points_and_nudged_points: splits the flat
buffer into thirds (k = len(points) // 3). -/
def get_surface_points_and_nudged_points (points : List Vec) :
    List Vec × List Vec × List Vec :=
  let k := points.length / 3
  (points.take k, (points.drop k).take k, points.drop (2 * k))

/-- The axis-0 write pattern of get_partial_points_array: rows strictly
before lower.1 take the interpolation of rows lower.1 and lower.1+1 of the
grid weighted by the residue lower.2; then rows strictly after upper.1 take
the interpolation of rows upper.1 and upper.1+1 of the updated grid
weighted by upper.2 (numpy executes the two slice writes in this order). -/
def partial_axis0 (g : Grid) (lower upper : ℕ × ℚ) : Grid :=
  let g1 := List.mapIdx (fun i row =>
    if i < lower.1 then
      rowInterp (getRow g lower.1) (getRow g (lower.1 + 1)) lower.2
    else row) g
  List.mapIdx (fun i row =>
    if upper.1 < i then
      rowInterp (getRow g1 upper.1) (getRow g1 (upper.1 + 1)) upper.2
    else row) g1

/-- The axis-1 write pattern of get_partial_points_array: within each row,
columns strictly before lower.1 take the interpolation of the row's columns
lower.1 and lower.1+1 weighted by lower.2; then columns strictly after
upper.1 take the interpolation of columns upper.1 and upper.1+1 of the
updated row weighted by upper.2. -/
def partial_axis1 (g : Grid) (lower upper : ℕ × ℚ) : Grid :=
  let g1 := g.map (fun row => List.mapIdx (fun j p =>
    if j < lower.1 then
      vinterp (row.getD lower.1 []) (row.getD (lower.1 + 1) []) lower.2
    else p) row)
  g1.map (fun row => List.mapIdx (fun j p =>
    if upper.1 < j then
      vinterp (row.getD upper.1 []) (row.getD (upper.1 + 1) []) upper.2
    else p) row)

/-- OpenGLSurface.get_partial_points_array: reshapes the flat array to
resolution = (nu, nv, d), applies the write pattern of the chosen axis with
the lower and upper (index, residue) pairs from integer_interpolate over
0..max_index = resolution[axis] - 1, and flattens back.  Empty arrays are
returned as is. -/
def get_partial_points_array (points : List Vec) (a b : ℚ)
    (resolution : ℕ × ℕ × ℕ) (axis : ℕ) : List Vec :=
  if points.length = 0 then points
  else
    let nu := resolution.1
    let nv := resolution.2.1
    let g := reshape2 nu nv points
    let max_index := [nu, nv, resolution.2.2].getD axis 0 - 1
    let lower := integer_interpolate 0 max_index a
    let upper := integer_interpolate 0 max_index b
    let g2 :=
      if axis = 0 then partial_axis0 g lower upper
      else partial_axis1 g lower upper
    g2.flatten

/-- OpenGLSurface.pointwise_become_partial: with a <= 0 and b >= 1 the
calling surface just takes over the source points (match_points); otherwise
each of the source's three thirds is copied and pushed through
get_partial_points_array at the source's resolution, and the results are
restacked.  The axis defaults to the caller's preferred creation axis. -/
def pointwise_become_partial (self smobject : Surface) (a b : ℚ)
    (axisOpt : Option ℕ) : Surface :=
  let axis := axisOpt.getD self.prefered_creation_axis
  if a ≤ 0 ∧ 1 ≤ b then
    Surface.mk self.resolution self.prefered_creation_axis smobject.points
  else
    let nu := smobject.resolution.1
    let nv := smobject.resolution.2
    let thirds := get_surface_points_and_nudged_points smobject.points
    Surface.mk self.resolution self.prefered_creation_axis
      ( get_partial_points_array thirds.1 a b (nu, nv, 3) axis ++
        get_partial_points_array thirds.2.1 a b (nu, nv, 3) axis ++
        get_partial_points_array thirds.2.2 a b (nu, nv, 3) axis)

/-- The method call self.pointwise_become_partial(smobject, a, b, axis) as a
transition on the pair (self, smobject) of surface objects.  The source
surface comes out unchanged: every array taken from it is copied
(arr.copy() in the source) before the in-place slice writes, and the fast
path only reads its points, so only the calling surface is mutated. -/
def pointwise_become_partial_call (st : Surface × Surface) (a b : ℚ)
    (axisOpt : Option ℕ) : Surface × Surface :=
  ( pointwise_become_partial st.1 st.2 a b axisOpt, st.2)

/-- OpenGLSurfaceGroup.__init__ together with the base OpenGLSurface
initialiser it invokes: the group first stores (0, 0) (or the passed
resolution argument), but super().__init__(uv_func=None, **kwargs) does
not forward the group's resolution parameter (being a named parameter, it
is never inside kwargs), so OpenGLSurface.__init__ receives resolution
None and unconditionally overwrites self.resolution with its own default
(101, 101).  init_points is overridden to do nothing, so the group's own
point buffer stays the empty buffer installed by the base initialiser. -/
def surface_group_init (resolution : Option (ℕ × ℕ)) : Surface :=
  let group_set := Surface.mk (resolution.getD (0, 0)) 1 []
  Surface.mk ((none : Option (ℕ × ℕ)).getD (101, 101))
    group_set.prefered_creation_axis group_set.points

/-- The state of an OpenGLTexturedSurface that the verified operations
touch: the surface fields plus its own UV array im_coords. -/
structure TexturedSurface where
  resolution : ℕ × ℕ
  prefered_creation_axis : ℕ
  points : List Vec
  im_coords : List Vec

/-- The UV array computed by OpenGLTexturedSurface.init_points:
[[u, v] for u in linspace(0, 1, nu) for v in linspace(1, 0, nv)]
(v runs in reverse so texture-space y decreases as the parameter grows). -/
def textured_im_coords (nu nv : ℕ) : List Vec :=
  (linspace 0 1 nu).flatMap (fun u => (linspace 1 0 nv).map (fun v => [u, v]))

/-- OpenGLTexturedSurface.pointwise_become_partial: runs the surface
version on the geometry (with the given axis, default 1), overwrites
im_coords with the source's UV values, and, when not on the fast path,
pushes im_coords through get_partial_points_array at resolution (nu, nv, 2). -/
def t_pointwise_become_partial (self tsmobject : TexturedSurface) (a b : ℚ)
    (axis : ℕ) : TexturedSurface :=
  let sup := pointwise_become_partial
    (Surface.mk self.resolution self.prefered_creation_axis self.points)
    (Surface.mk tsmobject.resolution tsmobject.prefered_creation_axis tsmobject.points)
    a b (some axis)
  let im_coords := tsmobject.im_coords
  if a ≤ 0 ∧ 1 ≤ b then
    TexturedSurface.mk self.resolution self.prefered_creation_axis sup.points im_coords
  else
    let nu := tsmobject.resolution.1
    let nv := tsmobject.resolution.2
    TexturedSurface.mk self.resolution self.prefered_creation_axis sup.points
      (get_partial_points_array im_coords a b (nu, nv, 2) axis)

/-- OpenGLSurface.sort_faces_back_to_front builds indices = range(n), n the
triangle count, and sorts it with Python's stable list sort keyed by
index_dot; the sorted position list is modelled with the stable mergeSort. -/
def index_dot (points : List Vec) (tri_is : List ℕ) (vect : Vec) (index : ℕ) : ℚ :=
  dot (points.getD (tri_is.getD (3 * index) 0) []) vect

/-- The sorted triangle position list (the list named indices in the source
after indices.sort(key=index_dot)). -/
def triangle_sort_order (points : List Vec) (tri_is : List ℕ) (vect : Vec) : List ℕ :=
  (List.range (tri_is.length / 3)).mergeSort
    (fun p q => decide (index_dot points tri_is vect p ≤ index_dot points tri_is vect q))

/-- OpenGLSurface.sort_faces_back_to_front: the strided writes
tri_is[k::3] = tri_is[k::3][indices] place, at triangle slot p of the
result, the 3-index group of the triangle at sorted position p. -/
def sort_faces_back_to_front (points : List Vec) (tri_is : List ℕ) (vect : Vec) : List ℕ :=
  (triangle_sort_order points tri_is vect).flatMap
    (fun p => (tri_is.drop (3 * p)).take 3)

/-- The triangles of a flat index buffer, as consecutive 3-index groups. -/
def triangleGroups (l : List ℕ) : List (List ℕ) :=
  (List.range (l.length / 3)).map (fun p => (l.drop (3 * p)).take 3)

/-- Modelled from the spec: interpolate_color of the color utility module
(outside the surface-module source) linearly interpolates between the
bracketing colors; a color is a vector of channel values and the
interpolation acts channel-wise. -/
def interpolate_color (c1 c2 : Vec) (alpha : ℚ) : Vec := vinterp c1 c2 alpha

/-- The loop "for i, pivot in enumerate(pivots): if pivot > z_value: ...
break" of set_fill_by_value: the enumeration index of the first pivot
exceeding z_value, starting the count at k; none when the loop never
breaks. -/
def pivot_break (z_value : ℚ) : List ℚ → ℕ → Option ℕ
  | [], _ => none
  | p :: rest, k => if z_value < p then some k else pivot_break z_value rest (k + 1)

/-- The per-element color decision of OpenGLSurface.set_fill_by_value for an
element measuring z_value: first color at or below the first pivot, last
color at or above the last pivot, and otherwise the loop over the pivots
breaks at the first pivot exceeding z_value and interpolates from the
previous one, with the fraction capped at 1 by min; when the loop never
breaks the element keeps its old color. -/
def fill_color_for_value (new_colors : List Vec) (pivots : List ℚ)
    (z_value : ℚ) (old : Vec) : Vec :=
  if z_value ≤ pivots.getD 0 0 then new_colors.getD 0 []
  else if pivots.getD (pivots.length - 1) 0 ≤ z_value then
    new_colors.getD (new_colors.length - 1) []
  else
    match pivot_break z_value pivots 0 with
    | some i =>
        let color_index :=
          min ((z_value - pivots.getD (i - 1) 0) /
            (pivots.getD i 0 - pivots.getD (i - 1) 0)) 1
        interpolate_color (new_colors.getD (i - 1) []) (new_colors.getD i [])
          color_index
    | none => old

/-- set_fill_by_value with a list of (color, pivot) tuples: the source
unzips it into new_colors and pivots. -/
def set_fill_by_value_color (colors : List (Vec × ℚ)) (z_value : ℚ)
    (old : Vec) : Vec :=
  fill_color_for_value (colors.map Prod.fst) (colors.map Prod.snd) z_value old

/-- The Python exceptions that the scale functions raise: ValueError (the
DomainError of the design) and ZeroDivisionError. -/
inductive PyError where
  | domain
  | zeroDivision

/-- LogBase.function: base ** value. -/
noncomputable def LogBase_function (base value : ℝ) : ℝ := base ^ value

/-- Python math.log(x, base) = log(x)/log(base): ValueError (domain) for a
non-positive argument or base, ZeroDivisionError when log(base) = 0
(base = 1). -/
noncomputable def math_log (x base : ℝ) : Except PyError ℝ :=
  if x ≤ 0 then Except.error PyError.domain
  else if base ≤ 0 then Except.error PyError.domain
  else if base = 1 then Except.error PyError.zeroDivision
  else Except.ok (Real.log x / Real.log base)

/-- LogBase.inverse_function: raises ValueError for value <= 0, otherwise
returns math.log(value, base). -/
noncomputable def LogBase_inverse_function (base value : ℝ) : Except PyError ℝ :=
  if value ≤ 0 then Except.error PyError.domain
  else math_log value base

/-- The frame property of the partial-reveal write, entry by entry over the
(nu, nv) grid view of a flat array: along the chosen axis (0 = rows, 1 =
columns), slices strictly before the lower index li hold the interpolation
of slices li and li+1 of the source weighted by the lower residue lr, the
interior slice [li, ui] is unchanged, and slices strictly after the upper
index ui hold the interpolation of slices ui and ui+1 of the source
weighted by the upper residue ur. -/
def sliceSpecAx (ax nu nv li ui : ℕ) (lr ur : ℚ) (src out : List Vec) : Prop :=
  ∀ i, i < nu → ∀ j, j < nv →
    entryAt (reshape2 nu nv out) i j =
      (if ax = 0 then
        (if i < li then
          vinterp (entryAt (reshape2 nu nv src) li j)
            (entryAt (reshape2 nu nv src) (li + 1) j) lr
         else if i ≤ ui then entryAt (reshape2 nu nv src) i j
         else
          vinterp (entryAt (reshape2 nu nv src) ui j)
            (entryAt (reshape2 nu nv src) (ui + 1) j) ur)
       else
        (if j < li then
          vinterp (entryAt (reshape2 nu nv src) i li)
            (entryAt (reshape2 nu nv src) i (li + 1)) lr
         else if j ≤ ui then entryAt (reshape2 nu nv src) i j
         else
          vinterp (entryAt (reshape2 nu nv src) i ui)
            (entryAt (reshape2 nu nv src) i (ui + 1)) ur))

/-
Helper lemmas about the list combinators used by the embedding.
-/

/-- getD of a mapped range, inside the bound, is the mapped function. -/
theorem getD_range_map {α : Type _} (n : ℕ) (f : ℕ → α) (t : ℕ) (ht : t < n)
    (d : α) : ((List.range n).map f).getD t d = f t := by
  rw [List.getD_eq_getElem _ _ (by simpa using ht)]
  simp

/-- getD of a map, inside the bound, is the function of the source getD. -/
theorem getD_map {α β : Type _} (l : List α) (g : α → β) (j : ℕ)
    (hj : j < l.length) (d : β) (dα : α) :
    (l.map g).getD j d = g (l.getD j dα) := by
  rw [List.getD_eq_getElem _ _ (by simpa using hj), List.getD_eq_getElem _ _ hj,
    List.getElem_map]

/-- Length of a flatMap whose pieces all have length m. -/
theorem flatMap_length_const {α β : Type _} (l : List α) (fn : α → List β)
    (m : ℕ) (hm : ∀ x ∈ l, (fn x).length = m) :
    (l.flatMap fn).length = l.length * m := by
  induction l with
  | nil => simp
  | cons x xs ih =>
    rw [List.flatMap_cons, List.length_append, hm x (by simp),
      ih (fun y hy => hm y (by simp [hy])), List.length_cons]
    ring

/-- getD into a flatMap whose pieces all have length m, at block i, slot j. -/
theorem flatMap_getD {α β : Type _} (l : List α) (fn : α → List β) (m : ℕ)
    (hm : ∀ x ∈ l, (fn x).length = m) (i j : ℕ) (hi : i < l.length) (hj : j < m)
    (d : β) (dα : α) :
    (l.flatMap fn).getD (i * m + j) d = (fn (l.getD i dα)).getD j d := by
  induction l generalizing i with
  | nil => simp at hi
  | cons x xs ih =>
    rw [List.flatMap_cons]
    cases i with
    | zero =>
      rw [Nat.zero_mul, Nat.zero_add,
        List.getD_append _ _ _ _ (by rw [hm x (by simp)]; exact hj)]
      simp
    | succ i =>
      have hxm : (x :: xs).getD (i + 1) dα = xs.getD i dα := by simp
      have hlen : (fn x).length ≤ (i + 1) * m + j := by
        rw [hm x (by simp)]
        calc m ≤ (i + 1) * m := Nat.le_mul_of_pos_left m (Nat.succ_pos i)
        _ ≤ (i + 1) * m + j := Nat.le_add_right _ _
      rw [List.getD_append_right _ _ _ _ hlen, hxm, hm x (by simp)]
      have harith : (i + 1) * m + j - m = i * m + j := by
        rw [Nat.succ_mul]
        omega
      rw [harith]
      exact ih (fun y hy => hm y (by simp [hy])) i (by simpa using hi)

/-- Length of linspace is the sample count. -/
theorem linspace_length (a b : ℚ) (n : ℕ) : (linspace a b n).length = n := by
  unfold linspace
  split <;> simp

/-- Entries of linspace with at least two samples. -/
theorem linspace_getD (a b : ℚ) (n : ℕ) (hn : 2 ≤ n) (i : ℕ) (hi : i < n)
    (d : ℚ) :
    (linspace a b n).getD i d = a + (b - a) * i / ((n : ℚ) - 1) := by
  unfold linspace
  rw [if_neg (by omega)]
  exact getD_range_map n _ i hi d

/-
Claim theorems.
-/

/-- Claim C10: a surface constructed without a parametric function defaults
to the flat plane: uv_func with no passed function returns (u, v, 0) for
every u and v. -/
theorem C10_uv_func_default (u v : ℚ) : uv_func none u v = [u, v, 0] := rfl

/-- Claim C8 (counterexample): the group's stored (0, 0) is dead — the
base surface initialiser, which the group constructor calls without
forwarding its resolution parameter, unconditionally overwrites the
resolution with its own default — so a group built without a resolution
argument (and equally one built with (5, 5)) ends with resolution
(101, 101), which is not (0, 0). -/
theorem C8_group_resolution_counterexample :
    (surface_group_init none).resolution = (101, 101) ∧
    (surface_group_init (some (5, 5))).resolution = (101, 101) ∧
    ((101, 101) : ℕ × ℕ) ≠ ((0, 0) : ℕ × ℕ) :=
  ⟨rfl, rfl, by decide⟩

/-- Claim C8 (amended): every surface group owns no geometry of its own —
its own point set stays empty for every construction — but its resolution
is not (0, 0): the (0, 0) stored by the group constructor (like any passed
resolution argument) is unconditionally overwritten by the base surface
initialiser, so every surface group instance has resolution (101, 101). -/
theorem C8_group_defaults :
    (∀ r : Option (ℕ × ℕ), (surface_group_init r).resolution = (101, 101)) ∧
      ∀ r : Option (ℕ × ℕ), (surface_group_init r).points = [] :=
  ⟨fun _ => rfl, fun _ => rfl⟩

/-- Claim C7 (counterexample): at base 1 the round trip fails: value
1 ** 3 = 1 is positive, yet inverse_function does not return the logarithm
(nor a DomainError) — math.log(1, 1) raises ZeroDivisionError.  So the
claim is false for every base; it holds for positive bases other than 1. -/
theorem C7_log_counterexample :
    (0 : ℝ) < 1 ∧
      LogBase_inverse_function 1 (LogBase_function 1 3) =
        Except.error PyError.zeroDivision := by
  refine ⟨one_pos, ?_⟩
  have h : LogBase_function 1 3 = 1 := by
    simp [LogBase_function, Real.one_rpow]
  rw [h]
  norm_num [LogBase_inverse_function, math_log]

/-- Claim C7 (amended): for every base b with 0 < b and b ≠ 1,
inverse_function raises the DomainError exactly on values ≤ 0, returns
log base b of the value on positive values (never clamping), and inverts
function: inverse_function (function x) = x for every x. -/
theorem C7_log_inverse (b v x : ℝ) (hb : 0 < b) (hb1 : b ≠ 1) :
    (LogBase_inverse_function b v = Except.error PyError.domain ↔ v ≤ 0) ∧
    (0 < v → LogBase_inverse_function b v = Except.ok (Real.log v / Real.log b)) ∧
    LogBase_inverse_function b (LogBase_function b x) = Except.ok x := by
  have hlogb : Real.log b ≠ 0 := by
    intro h
    rcases Real.log_eq_zero.mp h with h0 | h1 | hm1
    · exact absurd h0 (ne_of_gt hb)
    · exact hb1 h1
    · nlinarith
  have hok : ∀ w : ℝ, 0 < w →
      LogBase_inverse_function b w = Except.ok (Real.log w / Real.log b) := by
    intro w hw
    unfold LogBase_inverse_function math_log
    rw [if_neg (not_le.mpr hw), if_neg (not_le.mpr hw), if_neg (not_le.mpr hb),
      if_neg hb1]
  refine ⟨⟨?_, ?_⟩, hok v, ?_⟩
  · intro h
    by_contra hv
    rw [hok v (not_le.mp hv)] at h
    exact absurd h (by simp)
  · intro hv
    unfold LogBase_inverse_function
    rw [if_pos hv]
  · have hpos : 0 < LogBase_function b x := Real.rpow_pos_of_pos hb x
    rw [hok _ hpos]
    unfold LogBase_function
    rw [Real.log_rpow hb, mul_div_assoc, div_self hlogb, mul_one]

/-- Witness for C7 at base 10, value 5, x = 3. -/
theorem C7_log_inverse_witness :
    (0 : ℝ) < 10 ∧ (10 : ℝ) ≠ 1 ∧
      ((LogBase_inverse_function 10 5 = Except.error PyError.domain ↔ (5 : ℝ) ≤ 0) ∧
       ((0 : ℝ) < 5 →
         LogBase_inverse_function 10 5 = Except.ok (Real.log 5 / Real.log 10)) ∧
       LogBase_inverse_function 10 (LogBase_function 10 3) = Except.ok 3) :=
  ⟨by norm_num, by norm_num, C7_log_inverse 10 5 3 (by norm_num) (by norm_num)⟩

/-- Entries of the triangle index buffer, in terms of the flat position. -/
theorem cti_getD (nu nv t : ℕ) (h : ¬(nu = 0 ∨ nv = 0))
    (ht : t < 6 * ((nu - 1) * (nv - 1))) :
    (compute_triangle_indices nu nv).getD t 0 =
      (if t % 6 = 0 then (t / 6 / (nv - 1)) * nv + t / 6 % (nv - 1)
       else if t % 6 = 1 then (t / 6 / (nv - 1) + 1) * nv + t / 6 % (nv - 1)
       else if t % 6 = 2 then (t / 6 / (nv - 1)) * nv + (t / 6 % (nv - 1) + 1)
       else if t % 6 = 3 then (t / 6 / (nv - 1)) * nv + (t / 6 % (nv - 1) + 1)
       else if t % 6 = 4 then (t / 6 / (nv - 1) + 1) * nv + t / 6 % (nv - 1)
       else (t / 6 / (nv - 1) + 1) * nv + (t / 6 % (nv - 1) + 1)) := by
  unfold compute_triangle_indices
  rw [if_neg h]
  exact getD_range_map _ _ t ht 0

/-- Claim C3: for every resolution (nu, nv) the triangle index buffer has
length exactly 6*(nu-1)*(nv-1); when nu = 0 or nv = 0 it is empty; and for
nu, nv ≥ 1, cell (i, j) (i < nu-1, j < nv-1, cell number c = i*(nv-1)+j)
carries the six indices (TL, BL, TR, TR, BL, BR), with bottom = index + 1
along u and right = index + 1 along v in the row-major grid. -/
theorem C3_triangle_indices (nu nv : ℕ) :
    (compute_triangle_indices nu nv).length = 6 * ((nu - 1) * (nv - 1)) ∧
    ((nu = 0 ∨ nv = 0) → compute_triangle_indices nu nv = []) ∧
    (∀ i j, i < nu - 1 → j < nv - 1 →
      (compute_triangle_indices nu nv).getD (6 * (i * (nv - 1) + j)) 0 =
        i * nv + j ∧
      (compute_triangle_indices nu nv).getD (6 * (i * (nv - 1) + j) + 1) 0 =
        (i + 1) * nv + j ∧
      (compute_triangle_indices nu nv).getD (6 * (i * (nv - 1) + j) + 2) 0 =
        i * nv + (j + 1) ∧
      (compute_triangle_indices nu nv).getD (6 * (i * (nv - 1) + j) + 3) 0 =
        i * nv + (j + 1) ∧
      (compute_triangle_indices nu nv).getD (6 * (i * (nv - 1) + j) + 4) 0 =
        (i + 1) * nv + j ∧
      (compute_triangle_indices nu nv).getD (6 * (i * (nv - 1) + j) + 5) 0 =
        (i + 1) * nv + (j + 1)) := by
  refine ⟨?_, ?_, ?_⟩
  · unfold compute_triangle_indices
    by_cases h : nu = 0 ∨ nv = 0
    · rw [if_pos h]
      rcases h with h | h <;> subst h <;> simp
    · rw [if_neg h]
      simp
  · intro h
    unfold compute_triangle_indices
    rw [if_pos h]
  · intro i j hi hj
    have hno : ¬(nu = 0 ∨ nv = 0) := by omega
    have hc : i * (nv - 1) + j < (nu - 1) * (nv - 1) := by
      calc i * (nv - 1) + j < i * (nv - 1) + (nv - 1) := by omega
      _ = (i + 1) * (nv - 1) := by ring
      _ ≤ (nu - 1) * (nv - 1) := Nat.mul_le_mul_right _ (by omega)
    have hdiv : ∀ r, r < 6 → (6 * (i * (nv - 1) + j) + r) / 6 = i * (nv - 1) + j :=
      fun r hr => by omega
    have hmod : ∀ r, r < 6 → (6 * (i * (nv - 1) + j) + r) % 6 = r :=
      fun r hr => by omega
    have hci : (i * (nv - 1) + j) / (nv - 1) = i := by
      rw [Nat.mul_comm i (nv - 1), Nat.mul_add_div (by omega),
        Nat.div_eq_of_lt hj, Nat.add_zero]
    have hcj : (i * (nv - 1) + j) % (nv - 1) = j := by
      rw [Nat.mul_comm i (nv - 1), Nat.mul_add_mod, Nat.mod_eq_of_lt hj]
    have hb : ∀ r, r < 6 →
        6 * (i * (nv - 1) + j) + r < 6 * ((nu - 1) * (nv - 1)) := by
      intro r hr
      calc 6 * (i * (nv - 1) + j) + r < 6 * (i * (nv - 1) + j) + 6 := by omega
      _ = 6 * (i * (nv - 1) + j + 1) := by ring
      _ ≤ 6 * ((nu - 1) * (nv - 1)) := Nat.mul_le_mul_left _ (by omega)
    have hdiv0 : 6 * (i * (nv - 1) + j) / 6 = i * (nv - 1) + j := by omega
    have hmod0 : 6 * (i * (nv - 1) + j) % 6 = 0 := by omega
    refine ⟨?_, ?_, ?_, ?_, ?_, ?_⟩
    · rw [cti_getD nu nv _ hno (by
        have := hb 0 (by omega)
        omega), hmod0, hdiv0, hci, hcj]
      norm_num
    · rw [cti_getD nu nv _ hno (hb 1 (by omega)), hmod 1 (by omega),
        hdiv 1 (by omega), hci, hcj]
      norm_num
    · rw [cti_getD nu nv _ hno (hb 2 (by omega)), hmod 2 (by omega),
        hdiv 2 (by omega), hci, hcj]
      norm_num
    · rw [cti_getD nu nv _ hno (hb 3 (by omega)), hmod 3 (by omega),
        hdiv 3 (by omega), hci, hcj]
      norm_num
    · rw [cti_getD nu nv _ hno (hb 4 (by omega)), hmod 4 (by omega),
        hdiv 4 (by omega), hci, hcj]
      norm_num
    · rw [cti_getD nu nv _ hno (hb 5 (by omega)), hmod 5 (by omega),
        hdiv 5 (by omega), hci, hcj]
      norm_num

/-- Witness for C3 at resolution (2, 2): one cell, six indices
(0, 2, 1, 1, 2, 3), total length 6. -/
theorem C3_triangle_indices_witness :
    (0 < 2 - 1 ∧ 0 < 2 - 1) ∧
      (compute_triangle_indices 2 2).getD 0 0 = 0 ∧
      (compute_triangle_indices 2 2).getD 1 0 = 2 ∧
      (compute_triangle_indices 2 2).getD 2 0 = 1 ∧
      (compute_triangle_indices 2 2).getD 3 0 = 1 ∧
      (compute_triangle_indices 2 2).getD 4 0 = 2 ∧
      (compute_triangle_indices 2 2).getD 5 0 = 3 := by
  have h := (C3_triangle_indices 2 2).2.2 0 0 (by decide) (by decide)
  refine ⟨by decide, ?_, ?_, ?_, ?_, ?_, ?_⟩
  · simpa using h.1
  · simpa using h.2.1
  · simpa using h.2.2.1
  · simpa using h.2.2.2.1
  · simpa using h.2.2.2.2.1
  · simpa using h.2.2.2.2.2

/-- Claim C4: the textured-surface UV array has length nu*nv, is row-major
with u as outer axis, and entry (i, j) is (i/(nu-1), 1 - j/(nv-1)). -/
theorem C4_textured_uv (nu nv : ℕ) (h1 : 2 ≤ nu) (h2 : 2 ≤ nv) :
    (textured_im_coords nu nv).length = nu * nv ∧
    ∀ i j, i < nu → j < nv →
      (textured_im_coords nu nv).getD (i * nv + j) [] =
        [(i : ℚ) / ((nu : ℚ) - 1), 1 - (j : ℚ) / ((nv : ℚ) - 1)] := by
  have hm : ∀ u ∈ linspace 0 1 nu,
      ((linspace 1 0 nv).map (fun v => [u, v])).length = nv := by
    intro u _
    simp [linspace_length]
  constructor
  · unfold textured_im_coords
    rw [flatMap_length_const _ _ nv hm, linspace_length]
  · intro i j hi hj
    unfold textured_im_coords
    rw [flatMap_getD _ _ nv hm i j (by rw [linspace_length]; exact hi) hj [] 0,
      getD_map _ _ j (by rw [linspace_length]; exact hj) [] 0,
      linspace_getD 0 1 nu h1 i hi 0, linspace_getD 1 0 nv h2 j hj 0]
    norm_num
    ring

/-- Witness for C4 at resolution (3, 3): UV at grid index (0, 0) is (0, 1)
and at (2, 2) is (1, 0). -/
theorem C4_textured_uv_witness :
    (2 ≤ 3 ∧ (textured_im_coords 3 3).length = 3 * 3) ∧
      (textured_im_coords 3 3).getD 0 [] = [0, 1] ∧
      (textured_im_coords 3 3).getD 8 [] = [1, 0] := by
  have h := C4_textured_uv 3 3 (by norm_num) (by norm_num)
  have h00 := h.2 0 0 (by norm_num) (by norm_num)
  have h22 := h.2 2 2 (by norm_num) (by norm_num)
  norm_num at h00 h22
  exact ⟨⟨by norm_num, h.1⟩, h00, h22⟩

/-- Claim C2: for a <= 0 and b >= 1 the partial reveal takes the fast path:
the produced point buffer equals the source's point buffer exactly, for the
plain surface and for the textured surface (whose UV array is then also the
source's UV array). -/
theorem C2_partial_identity (self smobject : Surface)
    (tself tsm : TexturedSurface) (a b : ℚ) (axisOpt : Option ℕ) (axis : ℕ)
    (ha : a ≤ 0) (hb : 1 ≤ b) :
    ( pointwise_become_partial self smobject a b axisOpt).points = smobject.points ∧
    ( t_pointwise_become_partial tself tsm a b axis).points = tsm.points ∧
    ( t_pointwise_become_partial tself tsm a b axis).im_coords = tsm.im_coords := by
  have hfast : a ≤ 0 ∧ 1 ≤ b := ⟨ha, hb⟩
  refine ⟨?_, ?_, ?_⟩ <;>
    simp [ t_pointwise_become_partial, pointwise_become_partial, if_pos hfast]

/-- Witness for C2 at a = 0, b = 1 on small concrete surfaces. -/
theorem C2_partial_identity_witness :
    (0 : ℚ) ≤ 0 ∧ (1 : ℚ) ≤ 1 ∧
      (( pointwise_become_partial (Surface.mk (2, 2) 1 [])
          (Surface.mk (2, 2) 1 [[1, 2, 3]]) 0 1 none).points = [[1, 2, 3]] ∧
       ( t_pointwise_become_partial (TexturedSurface.mk (2, 2) 1 [] [])
          (TexturedSurface.mk (2, 2) 1 [[1, 2, 3]] [[0, 1]]) 0 1 1).points =
          [[1, 2, 3]] ∧
       ( t_pointwise_become_partial (TexturedSurface.mk (2, 2) 1 [] [])
          (TexturedSurface.mk (2, 2) 1 [[1, 2, 3]] [[0, 1]]) 0 1 1).im_coords =
          [[0, 1]]) :=
  ⟨le_refl 0, le_refl 1,
    C2_partial_identity (Surface.mk (2, 2) 1 []) (Surface.mk (2, 2) 1 [[1, 2, 3]])
      (TexturedSurface.mk (2, 2) 1 [] [])
      (TexturedSurface.mk (2, 2) 1 [[1, 2, 3]] [[0, 1]]) 0 1 none 1
      (le_refl 0) (le_refl 1)⟩

/-- The break index of the set_fill_by_value loop: starting the count at k,
the loop breaks at the first list position whose pivot exceeds z. -/
theorem pivot_break_spec (z : ℚ) (l : List ℚ) (k i : ℕ) (hi : i < l.length)
    (hmiss : ∀ j, j < i → ¬z < l.getD j 0) (hhit : z < l.getD i 0) :
    pivot_break z l k = some (k + i) := by
  induction l generalizing k i with
  | nil => simp at hi
  | cons p rest ih =>
    cases i with
    | zero =>
      simp only [List.getD_cons_zero] at hhit
      simp only [pivot_break, if_pos hhit, Nat.add_zero]
    | succ i =>
      have hp : ¬z < p := by simpa using hmiss 0 (Nat.succ_pos i)
      simp only [pivot_break, if_neg hp]
      have hrec := ih (k + 1) i (by simpa using hi)
        (fun j hj => by simpa using hmiss (j + 1) (by omega))
        (by simpa using hhit)
      rw [hrec]
      congr 1
      omega

/-- Strictly ascending pivots compare by position. -/
theorem pairwise_getD_lt (l : List ℚ) (h : l.Pairwise (fun x y => x < y))
    (i j : ℕ) (hij : i < j) (hj : j < l.length) : l.getD i 0 < l.getD j 0 := by
  rw [List.getD_eq_getElem _ _ (lt_trans hij hj), List.getD_eq_getElem _ _ hj]
  exact List.pairwise_iff_getElem.mp h i j (lt_trans hij hj) hj hij

/-- Claim C6: with strictly ascending pivots (at least two) and parallel
colors, the per-element color is: the first color at or below the first
pivot; the last color at or above the last pivot; otherwise, for the
bracket pivots[i] <= z < pivots[i+1], the interpolation of the bracketing
colors at the fractional position of z in the bracket capped at 1 by min,
and that fraction already lies in [0, 1] (so the min is the clamp to
[0, 1]). -/
theorem C6_fill_by_value (new_colors : List Vec) (pivots : List ℚ) (old : Vec)
    (hsort : pivots.Pairwise (fun x y => x < y)) (h2 : 2 ≤ pivots.length)
    (z : ℚ) :
    (z ≤ pivots.getD 0 0 →
      fill_color_for_value new_colors pivots z old = new_colors.getD 0 []) ∧
    (pivots.getD (pivots.length - 1) 0 ≤ z →
      fill_color_for_value new_colors pivots z old =
        new_colors.getD (new_colors.length - 1) []) ∧
    (∀ i, i + 1 < pivots.length → pivots.getD 0 0 < z →
      pivots.getD i 0 ≤ z → z < pivots.getD (i + 1) 0 →
      fill_color_for_value new_colors pivots z old =
        interpolate_color (new_colors.getD i []) (new_colors.getD (i + 1) [])
          (min ((z - pivots.getD i 0) /
            (pivots.getD (i + 1) 0 - pivots.getD i 0)) 1) ∧
      0 ≤ (z - pivots.getD i 0) / (pivots.getD (i + 1) 0 - pivots.getD i 0) ∧
      (z - pivots.getD i 0) / (pivots.getD (i + 1) 0 - pivots.getD i 0) ≤ 1) := by
  refine ⟨?_, ?_, ?_⟩
  · intro hz
    unfold fill_color_for_value
    rw [if_pos hz]
  · intro hz
    have h0 : pivots.getD 0 0 < pivots.getD (pivots.length - 1) 0 :=
      pairwise_getD_lt pivots hsort 0 (pivots.length - 1) (by omega) (by omega)
    unfold fill_color_for_value
    rw [if_neg (by linarith), if_pos hz]
  · intro i hi1 h0z hiz hzi
    have hlast : z < pivots.getD (pivots.length - 1) 0 := by
      rcases eq_or_lt_of_le (Nat.succ_le_of_lt (Nat.lt_of_succ_lt_succ
        (Nat.lt_succ_of_lt hi1))) with h | h
      · rcases Nat.lt_or_ge (i + 1) (pivots.length - 1) with hlt | hge
        · exact lt_trans hzi (pairwise_getD_lt pivots hsort (i + 1)
            (pivots.length - 1) hlt (by omega))
        · have : i + 1 = pivots.length - 1 := by omega
          rw [this] at hzi
          exact hzi
      · rcases Nat.lt_or_ge (i + 1) (pivots.length - 1) with hlt | hge
        · exact lt_trans hzi (pairwise_getD_lt pivots hsort (i + 1)
            (pivots.length - 1) hlt (by omega))
        · have : i + 1 = pivots.length - 1 := by omega
          rw [this] at hzi
          exact hzi
    have hbreak : pivot_break z pivots 0 = some (i + 1) := by
      have := pivot_break_spec z pivots 0 (i + 1) hi1
        (fun j hj => by
          have hji : j ≤ i := by omega
          rcases eq_or_lt_of_le hji with h | h
          · subst h
            exact not_lt.mpr hiz
          · exact not_lt.mpr (le_of_lt (lt_of_lt_of_le
              (pairwise_getD_lt pivots hsort j i h (by omega)) hiz))) hzi
      simpa using this
    have hfrac0 : 0 ≤ (z - pivots.getD i 0) /
        (pivots.getD (i + 1) 0 - pivots.getD i 0) := by
      apply div_nonneg
      · linarith
      · have := pairwise_getD_lt pivots hsort i (i + 1) (by omega) hi1
        linarith
    have hfrac1 : (z - pivots.getD i 0) /
        (pivots.getD (i + 1) 0 - pivots.getD i 0) ≤ 1 := by
      have hlt := pairwise_getD_lt pivots hsort i (i + 1) (by omega) hi1
      rw [div_le_one (by linarith)]
      linarith
    refine ⟨?_, hfrac0, hfrac1⟩
    unfold fill_color_for_value
    rw [if_neg (by linarith), if_neg (by linarith), hbreak]
    simp only [Nat.add_sub_cancel]

/-- Witness for C6 with pivots (-2/5, 0, 2/5) and colors RED = (1,0,0),
YELLOW = (1,1,0), GREEN = (0,1,0): value -1/2 maps to RED, value 1/2 maps
to GREEN, and value 1/5 maps to the color at ratio 1/2 between YELLOW and
GREEN. -/
theorem C6_fill_by_value_witness :
    (([(-2/5 : ℚ), 0, 2/5]).Pairwise (fun x y => x < y) ∧
      2 ≤ ([(-2/5 : ℚ), 0, 2/5]).length) ∧
    fill_color_for_value [[1, 0, 0], [1, 1, 0], [0, 1, 0]] [-2/5, 0, 2/5]
      (-1/2) [] = [1, 0, 0] ∧
    fill_color_for_value [[1, 0, 0], [1, 1, 0], [0, 1, 0]] [-2/5, 0, 2/5]
      (1/2) [] = [0, 1, 0] ∧
    fill_color_for_value [[1, 0, 0], [1, 1, 0], [0, 1, 0]] [-2/5, 0, 2/5]
      (1/5) [] = interpolate_color [1, 1, 0] [0, 1, 0] (1/2) := by
  have hsort : ([(-2/5 : ℚ), 0, 2/5]).Pairwise (fun x y => x < y) := by
    norm_num [List.pairwise_cons]
  have h2 : 2 ≤ ([(-2/5 : ℚ), 0, 2/5]).length := by norm_num
  have hred := (C6_fill_by_value [[1, 0, 0], [1, 1, 0], [0, 1, 0]]
    [-2/5, 0, 2/5] [] hsort h2 (-1/2)).1 (by norm_num)
  have hgreen := (C6_fill_by_value [[1, 0, 0], [1, 1, 0], [0, 1, 0]]
    [-2/5, 0, 2/5] [] hsort h2 (1/2)).2.1 (by norm_num)
  have hmid := ((C6_fill_by_value [[1, 0, 0], [1, 1, 0], [0, 1, 0]]
    [-2/5, 0, 2/5] [] hsort h2 (1/5)).2.2 1 (by norm_num) (by norm_num)
    (by norm_num) (by norm_num)).1
  refine ⟨⟨hsort, h2⟩, ?_, ?_, ?_⟩
  · rw [hred]
    rfl
  · rw [hgreen]
    rfl
  · rw [hmid]
    norm_num [List.getD_cons_zero, List.getD_cons_succ, min_def]

/-
Bounds for the integer-interpolation index (always called with start 0).
-/

/-- The interpolated index stays at most stop - 1, so that the index and
its successor are both valid positions among 0..stop. -/
theorem ii_fst_le (stop : ℕ) (alpha : ℚ) :
    (integer_interpolate 0 stop alpha).1 ≤ stop - 1 := by
  unfold integer_interpolate
  rcases le_or_lt 1 alpha with h1 | h1
  · rw [if_pos h1]
  · rw [if_neg (not_le.mpr h1)]
    rcases le_or_lt alpha 0 with h0 | h0
    · rw [if_pos h0]
      exact Nat.zero_le _
    · rw [if_neg (not_le.mpr h0)]
      dsimp only
      rcases Nat.eq_zero_or_pos stop with hs | hs
      · subst hs
        norm_num
      · have hfl : ⌊((0 : ℕ) : ℚ) + alpha * ((stop : ℚ) - ((0 : ℕ) : ℚ))⌋ <
            (stop : ℤ) := by
          apply Int.floor_lt.mpr
          push_cast
          have hmul : alpha * (stop : ℚ) < 1 * (stop : ℚ) :=
            mul_lt_mul_of_pos_right h1 (by exact_mod_cast hs)
          nlinarith
        omega

/-- The interpolated index is monotone in the fraction. -/
theorem ii_fst_mono (stop : ℕ) {a b : ℚ} (hab : a ≤ b) :
    (integer_interpolate 0 stop a).1 ≤ (integer_interpolate 0 stop b).1 := by
  rcases le_or_lt 1 b with hb1 | hb1
  · have hb : (integer_interpolate 0 stop b).1 = stop - 1 := by
      unfold integer_interpolate
      rw [if_pos hb1]
    rw [hb]
    exact ii_fst_le stop a
  · rcases le_or_lt a 0 with ha0 | ha0
    · have ha : (integer_interpolate 0 stop a).1 = 0 := by
        unfold integer_interpolate
        rw [if_neg (by linarith), if_pos ha0]
      rw [ha]
      exact Nat.zero_le _
    · unfold integer_interpolate
      rw [if_neg (by linarith), if_neg (not_le.mpr ha0),
        if_neg (not_le.mpr hb1), if_neg (by linarith : ¬b ≤ 0)]
      dsimp only
      apply Int.toNat_le_toNat
      apply Int.floor_mono
      have hstop : (0 : ℚ) ≤ (stop : ℚ) := by positivity
      push_cast
      nlinarith [mul_le_mul_of_nonneg_right hab hstop]

/-- When the interpolated index is positive, its successor is at most stop
(so both the index and its successor are valid row positions below a grid
of stop + 1 rows). -/
theorem ii_fst_succ_le (stop : ℕ) (alpha : ℚ)
    (h : 1 ≤ (integer_interpolate 0 stop alpha).1) :
    (integer_interpolate 0 stop alpha).1 + 1 ≤ stop := by
  rcases Nat.eq_zero_or_pos stop with hs | hs
  · subst hs
    have hz : (integer_interpolate 0 0 alpha).1 = 0 := by
      unfold integer_interpolate
      rcases le_or_lt 1 alpha with h1 | h1
      · rw [if_pos h1]
      · rw [if_neg (not_le.mpr h1)]
        rcases le_or_lt alpha 0 with h0 | h0
        · rw [if_pos h0]
        · rw [if_neg (not_le.mpr h0)]
          norm_num
    omega
  · have := ii_fst_le stop alpha
    omega

/-
Shape lemmas for the grid view and its flattening.
-/

theorem reshape2_length (nu nv : ℕ) (pts : List Vec) :
    (reshape2 nu nv pts).length = nu := by
  simp [reshape2]

theorem getRow_reshape2 (nu nv : ℕ) (pts : List Vec) (i : ℕ) (hi : i < nu) :
    getRow (reshape2 nu nv pts) i =
      (List.range nv).map (fun j => pts.getD (i * nv + j) []) := by
  unfold getRow reshape2
  exact getD_range_map nu _ i hi []

theorem getRow_reshape2_length (nu nv : ℕ) (pts : List Vec) (i : ℕ)
    (hi : i < nu) : (getRow (reshape2 nu nv pts) i).length = nv := by
  rw [getRow_reshape2 nu nv pts i hi]
  simp

theorem entry_reshape2 (nu nv : ℕ) (pts : List Vec) (i j : ℕ) (hi : i < nu)
    (hj : j < nv) : entryAt (reshape2 nu nv pts) i j = pts.getD (i * nv + j) [] := by
  unfold entryAt
  have hrow := getRow_reshape2 nu nv pts i hi
  unfold getRow at hrow
  rw [hrow, getD_range_map nv _ j hj []]

theorem getD_mapIdx {α β : Type _} (l : List α) (f : ℕ → α → β) (i : ℕ)
    (hi : i < l.length) (d : β) (dα : α) :
    (List.mapIdx f l).getD i d = f i (l.getD i dα) := by
  rw [List.getD_eq_getElem _ _ (by simpa using hi), List.getD_eq_getElem _ _ hi,
    List.getElem_mapIdx]

theorem flatten_length_const {α : Type _} (g : List (List α)) (m : ℕ)
    (hr : ∀ r ∈ g, r.length = m) : g.flatten.length = g.length * m := by
  rw [List.length_flatten]
  have hmap : List.map List.length g = List.replicate g.length m := by
    apply List.eq_replicate_iff.mpr
    refine ⟨by simp, ?_⟩
    intro x hx
    obtain ⟨r, hrg, rfl⟩ := List.mem_map.mp hx
    exact hr r hrg
  rw [hmap, List.sum_replicate, smul_eq_mul]

theorem flatten_getD {α : Type _} (g : List (List α)) (m : ℕ)
    (hr : ∀ r ∈ g, r.length = m) (i j : ℕ) (hi : i < g.length) (hj : j < m)
    (d : α) : g.flatten.getD (i * m + j) d = (g.getD i []).getD j d := by
  induction g generalizing i with
  | nil => simp at hi
  | cons r rest ih =>
    rw [List.flatten_cons]
    cases i with
    | zero =>
      rw [Nat.zero_mul, Nat.zero_add,
        List.getD_append _ _ _ _ (by rw [hr r (by simp)]; exact hj)]
      simp
    | succ i =>
      have hlen : r.length ≤ (i + 1) * m + j := by
        rw [hr r (by simp)]
        calc m ≤ (i + 1) * m := Nat.le_mul_of_pos_left m (Nat.succ_pos i)
        _ ≤ (i + 1) * m + j := Nat.le_add_right _ _
      rw [List.getD_append_right _ _ _ _ hlen, hr r (by simp)]
      have harith : (i + 1) * m + j - m = i * m + j := by
        rw [Nat.succ_mul]
        omega
      rw [harith]
      have hrec := ih (fun r' h' => hr r' (by simp [h'])) i (by simpa using hi)
      simpa using hrec

/-- Rows all have length m as soon as every position-read row does. -/
theorem rows_const_of_getD {α : Type _} (g : List (List α)) (m : ℕ)
    (h : ∀ i, i < g.length → (g.getD i []).length = m) :
    ∀ r ∈ g, r.length = m := by
  intro r hr
  obtain ⟨i, hi, hEq⟩ := List.mem_iff_getElem.mp hr
  have hh := h i hi
  rw [List.getD_eq_getElem _ _ hi] at hh
  rw [← hEq]
  exact hh

theorem partial_axis0_length (g : Grid) (l u : ℕ × ℚ) :
    (partial_axis0 g l u).length = g.length := by
  simp [partial_axis0]

theorem partial_axis1_length (g : Grid) (l u : ℕ × ℚ) :
    (partial_axis1 g l u).length = g.length := by
  simp [partial_axis1]

/-- Row values of the axis-0 write pattern when the lower index is at most
the upper index (the second write then reads unmodified rows). -/
theorem partial_axis0_getRow (g : Grid) (l u : ℕ × ℚ) (i : ℕ)
    (hi : i < g.length) (hlu : l.1 ≤ u.1) :
    getRow (partial_axis0 g l u) i =
      if i < l.1 then rowInterp (getRow g l.1) (getRow g (l.1 + 1)) l.2
      else if i ≤ u.1 then getRow g i
      else rowInterp (getRow g u.1) (getRow g (u.1 + 1)) u.2 := by
  have hg1row : ∀ k, l.1 ≤ k → getRow (List.mapIdx (fun i row =>
      if i < l.1 then rowInterp (getRow g l.1) (getRow g (l.1 + 1)) l.2
      else row) g) k = getRow g k := by
    intro k hk
    unfold getRow
    rcases Nat.lt_or_ge k g.length with hkg | hkg
    · rw [getD_mapIdx g _ k hkg [] []]
      rw [if_neg (by omega)]
    · rw [List.getD_eq_default _ _ (by rw [List.length_mapIdx]; exact hkg),
        List.getD_eq_default _ _ hkg]
  simp only [partial_axis0]
  unfold getRow
  rw [getD_mapIdx _ _ i (by rw [List.length_mapIdx]; exact hi) [] []]
  try dsimp only
  by_cases hu : u.1 < i
  · rw [if_pos hu, if_neg (by omega : ¬i < l.1), if_neg (by omega : ¬i ≤ u.1)]
    have h1 := hg1row u.1 hlu
    have h2 := hg1row (u.1 + 1) (by omega)
    unfold getRow at h1 h2
    rw [h1, h2]
  · rw [if_neg hu, getD_mapIdx g _ i hi [] []]
    try dsimp only
    by_cases hl : i < l.1
    · rw [if_pos hl, if_pos hl]
    · rw [if_neg hl, if_neg hl, if_pos (by omega : i ≤ u.1)]

/-- Entry values of the axis-1 write pattern when the lower index is at
most the upper index. -/
theorem partial_axis1_entry (g : Grid) (l u : ℕ × ℚ) (i j : ℕ)
    (hi : i < g.length) (hj : j < (getRow g i).length) (hlu : l.1 ≤ u.1) :
    (getRow (partial_axis1 g l u) i).getD j [] =
      if j < l.1 then
        vinterp ((getRow g i).getD l.1 []) ((getRow g i).getD (l.1 + 1) []) l.2
      else if j ≤ u.1 then (getRow g i).getD j []
      else
        vinterp ((getRow g i).getD u.1 []) ((getRow g i).getD (u.1 + 1) []) u.2 := by
  unfold getRow at hj
  have hread : ∀ k, l.1 ≤ k → (List.mapIdx (fun j p =>
      if j < l.1 then
        vinterp ((g.getD i []).getD l.1 []) ((g.getD i []).getD (l.1 + 1) []) l.2
      else p) (g.getD i [])).getD k [] = (g.getD i []).getD k [] := by
    intro k hk
    rcases Nat.lt_or_ge k (g.getD i []).length with hkg | hkg
    · rw [getD_mapIdx _ _ k hkg [] []]
      try dsimp only
      rw [if_neg (by omega)]
    · rw [List.getD_eq_default _ _ (by rw [List.length_mapIdx]; exact hkg),
        List.getD_eq_default _ _ hkg]
  simp only [partial_axis1]
  unfold getRow
  rw [getD_map _ _ i (by simp [hi]) [] [], getD_map _ _ i hi [] []]
  try dsimp only
  rw [getD_mapIdx _ _ j (by rw [List.length_mapIdx]; exact hj) [] []]
  try dsimp only
  by_cases hu : u.1 < j
  · rw [if_pos hu, if_neg (by omega : ¬j < l.1), if_neg (by omega : ¬j ≤ u.1),
      hread u.1 hlu, hread (u.1 + 1) (by omega)]
  · rw [if_neg hu, getD_mapIdx _ _ j hj [] []]
    try dsimp only
    by_cases hl : j < l.1
    · rw [if_pos hl, if_pos hl]
    · rw [if_neg hl, if_neg hl, if_pos (by omega : j ≤ u.1)]

/-- The axis-1 write pattern never changes row lengths. -/
theorem partial_axis1_rows (g : Grid) (l u : ℕ × ℚ) (m : ℕ)
    (hr : ∀ r ∈ g, r.length = m) :
    ∀ r ∈ partial_axis1 g l u, r.length = m := by
  intro r hrmem
  simp only [partial_axis1] at hrmem
  obtain ⟨r1, hr1, rfl⟩ := List.mem_map.mp hrmem
  obtain ⟨r0, hr0, rfl⟩ := List.mem_map.mp hr1
  rw [List.length_mapIdx, List.length_mapIdx]
  exact hr r0 hr0

/-- The axis-0 write pattern keeps all rows at length m, provided the
lower-index reads are in bounds whenever a lower write happens (the upper
reads are in bounds automatically, because an upper write at row i forces
upper.1 + 1 <= i). -/
theorem rowInterp_length (r s : List Vec) (t : ℚ) :
    (rowInterp r s t).length = min r.length s.length := by
  simp [rowInterp]

theorem partial_axis0_rows (g : Grid) (l u : ℕ × ℚ) (m : ℕ)
    (hr : ∀ r ∈ g, r.length = m) (hl : 1 ≤ l.1 → l.1 + 1 < g.length) :
    ∀ r ∈ partial_axis0 g l u, r.length = m := by
  have hgetD : ∀ k, k < g.length → (g.getD k []).length = m := by
    intro k hk
    rw [List.getD_eq_getElem _ _ hk]
    exact hr _ (List.getElem_mem hk)
  have hg1 : ∀ k, k < g.length → (getRow (List.mapIdx (fun i row =>
      if i < l.1 then rowInterp (getRow g l.1) (getRow g (l.1 + 1)) l.2
      else row) g) k).length = m := by
    intro k hk
    unfold getRow
    rw [getD_mapIdx g _ k hk [] []]
    try dsimp only
    by_cases hkl : k < l.1
    · rw [if_pos hkl, rowInterp_length, hgetD l.1 (by omega),
        hgetD (l.1 + 1) (hl (by omega))]
      simp
    · rw [if_neg hkl]
      exact hgetD k hk
  apply rows_const_of_getD
  intro k hk
  rw [partial_axis0_length] at hk
  simp only [partial_axis0]
  rw [getD_mapIdx _ _ k (by rw [List.length_mapIdx]; exact hk) [] []]
  try dsimp only
  by_cases hku : u.1 < k
  · rw [if_pos hku, rowInterp_length, hg1 u.1 (by omega), hg1 (u.1 + 1) (by omega)]
    simp
  · rw [if_neg hku]
    have hgk := hg1 k hk
    unfold getRow at hgk
    exact hgk

/-- get_partial_points_array preserves the flat length nu*nv of its input
for axis 0 or 1 at resolution (nu, nv, d). -/
theorem gppa_length (pts : List Vec) (a b : ℚ) (nu nv d ax : ℕ)
    (hax : ax = 0 ∨ ax = 1) (hlen : pts.length = nu * nv) :
    (get_partial_points_array pts a b (nu, nv, d) ax).length = nu * nv := by
  by_cases h0 : pts.length = 0
  · unfold get_partial_points_array
    rw [if_pos h0]
    omega
  · have hprod : nu * nv ≠ 0 := by rw [← hlen]; exact h0
    have hnu1 : 1 ≤ nu := Nat.pos_of_ne_zero (Nat.mul_ne_zero_iff.mp hprod).1
    have hrows : ∀ r ∈ reshape2 nu nv pts, r.length = nv := by
      apply rows_const_of_getD
      intro i hi
      rw [reshape2_length] at hi
      exact getRow_reshape2_length nu nv pts i hi
    unfold get_partial_points_array
    rw [if_neg h0]
    try dsimp only
    rcases hax with rfl | rfl
    · rw [if_pos rfl]
      have hstop : List.getD [nu, nv, d] 0 0 - 1 = nu - 1 := by simp
      rw [hstop]
      have hrows0 : ∀ r ∈ partial_axis0 (reshape2 nu nv pts)
          (integer_interpolate 0 (nu - 1) a) (integer_interpolate 0 (nu - 1) b),
          r.length = nv := by
        apply partial_axis0_rows _ _ _ nv hrows
        intro h1
        rw [reshape2_length]
        have := ii_fst_succ_le (nu - 1) a h1
        omega
      rw [flatten_length_const _ nv hrows0, partial_axis0_length, reshape2_length]
    · rw [if_neg (by omega : ¬(1 = 0))]
      have hstop : List.getD [nu, nv, d] 1 0 - 1 = nv - 1 := by simp
      rw [hstop]
      have hrows1 : ∀ r ∈ partial_axis1 (reshape2 nu nv pts)
          (integer_interpolate 0 (nv - 1) a) (integer_interpolate 0 (nv - 1) b),
          r.length = nv := partial_axis1_rows _ _ _ nv hrows
      rw [flatten_length_const _ nv hrows1, partial_axis1_length, reshape2_length]

/-- Each sampled grid has exactly nu*nv points. -/
theorem sample_grid_length (f : ℚ → ℚ → Vec) (u_range v_range : ℚ × ℚ)
    (nu nv : ℕ) (du dv : ℚ) :
    (sample_grid f u_range v_range nu nv du dv).length = nu * nv := by
  unfold sample_grid
  rw [flatMap_length_const _ _ nv (fun u _ => by simp [linspace_length]),
    linspace_length]

/-- Splitting a stack of three equal-length arrays recovers the three
arrays. -/
theorem thirds_of_append (A B C : List Vec) (k : ℕ) (hA : A.length = k)
    (hB : B.length = k) (hC : C.length = k) :
    get_surface_points_and_nudged_points (A ++ B ++ C) = (A, B, C) := by
  have h3 : (A ++ B ++ C).length = 3 * k := by
    simp [hA, hB, hC]
    omega
  have hk : (A ++ B ++ C).length / 3 = k := by
    rw [h3]
    omega
  have e1 : (A ++ B ++ C).take k = A := by
    rw [List.append_assoc]
    exact List.take_left' hA
  have e2 : ((A ++ B ++ C).drop k).take k = B := by
    rw [List.append_assoc, List.drop_left' hA]
    exact List.take_left' hB
  have e3 : (A ++ B ++ C).drop (2 * k) = C := by
    apply List.drop_left'
    rw [List.length_append, hA, hB]
    omega
  simp only [get_surface_points_and_nudged_points]
  rw [hk, e1, e2, e3]

/-- Claim C9: both writers of the point buffer keep it a stack of three
equal-length arrays of nu*nv points each: init_points produces exactly the
stack [base, u-nudged, v-nudged] of three nu*nv-point samples, and
pointwise_become_partial (axis 0 or 1) of a source satisfying the
invariant at resolution (nu, nv) again yields thirds of nu*nv points
each. -/
theorem C9_thirds_invariant (f : ℚ → ℚ → Vec) (u_range v_range : ℚ × ℚ)
    (nu nv : ℕ) (epsilon : ℚ) (self smob : Surface) (a b : ℚ)
    (axisOpt : Option ℕ)
    (hax : axisOpt.getD self.prefered_creation_axis = 0 ∨
      axisOpt.getD self.prefered_creation_axis = 1)
    (hres : smob.resolution = (nu, nv))
    (hlen : smob.points.length = 3 * (nu * nv)) :
    (get_surface_points_and_nudged_points
        (init_points f u_range v_range nu nv epsilon) =
      (sample_grid f u_range v_range nu nv 0 0,
       sample_grid f u_range v_range nu nv epsilon 0,
       sample_grid f u_range v_range nu nv 0 epsilon) ∧
     (sample_grid f u_range v_range nu nv 0 0).length = nu * nv) ∧
    ((get_surface_points_and_nudged_points
        ( pointwise_become_partial self smob a b axisOpt).points).1.length =
      nu * nv ∧
     (get_surface_points_and_nudged_points
        ( pointwise_become_partial self smob a b axisOpt).points).2.1.length =
      nu * nv ∧
     (get_surface_points_and_nudged_points
        ( pointwise_become_partial self smob a b axisOpt).points).2.2.length =
      nu * nv) := by
  constructor
  · constructor
    · unfold init_points
      exact thirds_of_append _ _ _ (nu * nv) (sample_grid_length f _ _ nu nv 0 0)
        (sample_grid_length f _ _ nu nv epsilon 0)
        (sample_grid_length f _ _ nu nv 0 epsilon)
    · exact sample_grid_length f _ _ nu nv 0 0
  · have h1 : (get_surface_points_and_nudged_points smob.points).1.length =
        nu * nv := by
      simp only [get_surface_points_and_nudged_points, List.length_take, hlen]
      omega
    have h2 : (get_surface_points_and_nudged_points smob.points).2.1.length =
        nu * nv := by
      simp only [get_surface_points_and_nudged_points, List.length_take,
        List.length_drop, hlen]
      omega
    have h3 : (get_surface_points_and_nudged_points smob.points).2.2.length =
        nu * nv := by
      simp only [get_surface_points_and_nudged_points, List.length_drop, hlen]
      omega
    unfold pointwise_become_partial
    by_cases hfast : a ≤ 0 ∧ 1 ≤ b
    · rw [if_pos hfast]
      simp only [get_surface_points_and_nudged_points, List.length_take,
        List.length_drop, hlen]
      omega
    · rw [if_neg hfast]
      rw [hres]
      simp only
      rw [thirds_of_append _ _ _ (nu * nv)
        (gppa_length _ a b nu nv 3 _ hax h1)
        (gppa_length _ a b nu nv 3 _ hax h2)
        (gppa_length _ a b nu nv 3 _ hax h3)]
      exact ⟨gppa_length _ a b nu nv 3 _ hax h1,
        gppa_length _ a b nu nv 3 _ hax h2,
        gppa_length _ a b nu nv 3 _ hax h3⟩

/-- Witness for C9: a flat 2x2 surface, fast-path reveal (a = 0, b = 1),
axis defaulted to the preferred creation axis 1. -/
theorem C9_thirds_invariant_witness :
    ((Option.getD (none : Option ℕ)
        (Surface.mk (2, 2) 1 []).prefered_creation_axis = 0 ∨
      Option.getD (none : Option ℕ)
        (Surface.mk (2, 2) 1 []).prefered_creation_axis = 1) ∧
     (Surface.mk (2, 2) 1 (List.replicate 12 ([] : Vec))).resolution = (2, 2) ∧
     (Surface.mk (2, 2) 1 (List.replicate 12 ([] : Vec))).points.length =
       3 * (2 * 2)) ∧
    (get_surface_points_and_nudged_points
        (init_points (fun u v => [u, v, 0]) (0, 1) (0, 1) 2 2 (1 / 1000)) =
      (sample_grid (fun u v => [u, v, 0]) (0, 1) (0, 1) 2 2 0 0,
       sample_grid (fun u v => [u, v, 0]) (0, 1) (0, 1) 2 2 (1 / 1000) 0,
       sample_grid (fun u v => [u, v, 0]) (0, 1) (0, 1) 2 2 0 (1 / 1000)) ∧
     (sample_grid (fun u v => [u, v, 0]) (0, 1) (0, 1) 2 2 0 0).length = 2 * 2) ∧
    ((get_surface_points_and_nudged_points
        ( pointwise_become_partial (Surface.mk (2, 2) 1 [])
          (Surface.mk (2, 2) 1 (List.replicate 12 ([] : Vec))) 0 1
          none).points).1.length = 2 * 2 ∧
     (get_surface_points_and_nudged_points
        ( pointwise_become_partial (Surface.mk (2, 2) 1 [])
          (Surface.mk (2, 2) 1 (List.replicate 12 ([] : Vec))) 0 1
          none).points).2.1.length = 2 * 2 ∧
     (get_surface_points_and_nudged_points
        ( pointwise_become_partial (Surface.mk (2, 2) 1 [])
          (Surface.mk (2, 2) 1 (List.replicate 12 ([] : Vec))) 0 1
          none).points).2.2.length = 2 * 2) :=
  ⟨⟨Or.inr rfl, rfl, by simp⟩,
    C9_thirds_invariant (fun u v => [u, v, 0]) (0, 1) (0, 1) 2 2 (1 / 1000)
      (Surface.mk (2, 2) 1 []) (Surface.mk (2, 2) 1 (List.replicate 12 []))
      0 1 none (Or.inr rfl) rfl (by simp)⟩

theorem rowInterp_getD (r s : List Vec) (t : ℚ) (j : ℕ) (hr : j < r.length)
    (hs : j < s.length) :
    (rowInterp r s t).getD j [] = vinterp (r.getD j []) (s.getD j []) t := by
  unfold rowInterp
  rw [List.getD_eq_getElem _ _ (by rw [List.length_zipWith]; omega),
    List.getElem_zipWith, List.getD_eq_getElem _ _ hr, List.getD_eq_getElem _ _ hs]

theorem getRow_getD (g : Grid) (i j : ℕ) :
    (getRow g i).getD j [] = entryAt g i j := rfl

/-- The full entry-level description of get_partial_points_array on a
well-formed (nu, nv)-grid with at least two samples per direction and
a <= b: the written slices are exactly those outside [lower, upper]. -/
theorem gppa_spec (pts : List Vec) (a b : ℚ) (nu nv d ax : ℕ)
    (hax : ax = 0 ∨ ax = 1) (hlen : pts.length = nu * nv)
    (hnu : 2 ≤ nu) (hnv : 2 ≤ nv) (hab : a ≤ b) :
    sliceSpecAx ax nu nv
      (integer_interpolate 0 ((if ax = 0 then nu else nv) - 1) a).1
      (integer_interpolate 0 ((if ax = 0 then nu else nv) - 1) b).1
      (integer_interpolate 0 ((if ax = 0 then nu else nv) - 1) a).2
      (integer_interpolate 0 ((if ax = 0 then nu else nv) - 1) b).2
      pts (get_partial_points_array pts a b (nu, nv, d) ax) := by
  have hpts0 : ¬pts.length = 0 := by
    rw [hlen]
    have : 0 < nu * nv := Nat.mul_pos (by omega) (by omega)
    omega
  have hrows : ∀ r ∈ reshape2 nu nv pts, r.length = nv := by
    apply rows_const_of_getD
    intro i hi
    rw [reshape2_length] at hi
    exact getRow_reshape2_length nu nv pts i hi
  rcases hax with rfl | rfl
  · show sliceSpecAx 0 nu nv (integer_interpolate 0 (nu - 1) a).1
      (integer_interpolate 0 (nu - 1) b).1 (integer_interpolate 0 (nu - 1) a).2
      (integer_interpolate 0 (nu - 1) b).2 pts
      (get_partial_points_array pts a b (nu, nv, d) 0)
    set L := integer_interpolate 0 (nu - 1) a with hLdef
    set U := integer_interpolate 0 (nu - 1) b with hUdef
    have hLle : L.1 ≤ nu - 1 - 1 := ii_fst_le (nu - 1) a
    have hUle : U.1 ≤ nu - 1 - 1 := ii_fst_le (nu - 1) b
    have hLU : L.1 ≤ U.1 := ii_fst_mono (nu - 1) hab
    have hout : get_partial_points_array pts a b (nu, nv, d) 0 =
        (partial_axis0 (reshape2 nu nv pts) L U).flatten := by
      unfold get_partial_points_array
      rw [if_neg hpts0, hLdef, hUdef]
      simp
    have hrows0 : ∀ r ∈ partial_axis0 (reshape2 nu nv pts) L U,
        r.length = nv := by
      apply partial_axis0_rows _ _ _ nv hrows
      intro _
      rw [reshape2_length]
      omega
    unfold sliceSpecAx
    intro i hi j hj
    rw [entry_reshape2 nu nv (get_partial_points_array pts a b (nu, nv, d) 0)
      i j hi hj, hout,
      flatten_getD _ nv hrows0 i j
        (by rw [partial_axis0_length, reshape2_length]; exact hi) hj []]
    have hrowv := partial_axis0_getRow (reshape2 nu nv pts) L U i
      (by rw [reshape2_length]; exact hi) hLU
    unfold getRow at hrowv
    rw [hrowv, if_pos (rfl : (0 : ℕ) = 0)]
    by_cases h1 : i < L.1
    · rw [if_pos h1, if_pos h1,
        rowInterp_getD _ _ _ j
          (by
            have hh := getRow_reshape2_length nu nv pts L.1 (by omega)
            unfold getRow at hh
            rw [hh]
            exact hj)
          (by
            have hh := getRow_reshape2_length nu nv pts (L.1 + 1) (by omega)
            unfold getRow at hh
            rw [hh]
            exact hj)]
      rfl
    · rw [if_neg h1, if_neg h1]
      by_cases h2 : i ≤ U.1
      · rw [if_pos h2, if_pos h2]
        rfl
      · rw [if_neg h2, if_neg h2,
          rowInterp_getD _ _ _ j
            (by
              have hh := getRow_reshape2_length nu nv pts U.1 (by omega)
              unfold getRow at hh
              rw [hh]
              exact hj)
            (by
              have hh := getRow_reshape2_length nu nv pts (U.1 + 1) (by omega)
              unfold getRow at hh
              rw [hh]
              exact hj)]
        rfl
  · show sliceSpecAx 1 nu nv (integer_interpolate 0 (nv - 1) a).1
      (integer_interpolate 0 (nv - 1) b).1 (integer_interpolate 0 (nv - 1) a).2
      (integer_interpolate 0 (nv - 1) b).2 pts
      (get_partial_points_array pts a b (nu, nv, d) 1)
    set L := integer_interpolate 0 (nv - 1) a with hLdef
    set U := integer_interpolate 0 (nv - 1) b with hUdef
    have hLle : L.1 ≤ nv - 1 - 1 := ii_fst_le (nv - 1) a
    have hUle : U.1 ≤ nv - 1 - 1 := ii_fst_le (nv - 1) b
    have hLU : L.1 ≤ U.1 := ii_fst_mono (nv - 1) hab
    have hout : get_partial_points_array pts a b (nu, nv, d) 1 =
        (partial_axis1 (reshape2 nu nv pts) L U).flatten := by
      unfold get_partial_points_array
      rw [if_neg hpts0, hLdef, hUdef]
      simp
    have hrows1 : ∀ r ∈ partial_axis1 (reshape2 nu nv pts) L U,
        r.length = nv := partial_axis1_rows _ _ _ nv hrows
    unfold sliceSpecAx
    intro i hi j hj
    rw [entry_reshape2 nu nv (get_partial_points_array pts a b (nu, nv, d) 1)
      i j hi hj, hout,
      flatten_getD _ nv hrows1 i j
        (by rw [partial_axis1_length, reshape2_length]; exact hi) hj []]
    have hent := partial_axis1_entry (reshape2 nu nv pts) L U i j
      (by rw [reshape2_length]; exact hi)
      (by rw [getRow_reshape2_length nu nv pts i hi]; exact hj) hLU
    unfold getRow at hent
    rw [hent, if_neg (by omega : ¬(1 : ℕ) = 0)]
    by_cases h1 : j < L.1
    · rw [if_pos h1, if_pos h1]
      rfl
    · rw [if_neg h1, if_neg h1]
      by_cases h2 : j ≤ U.1
      · rw [if_pos h2, if_pos h2]
        rfl
      · rw [if_neg h2, if_neg h2]
        rfl

/-- Claim C1: on the slow path (not (a <= 0 and b >= 1)), for a source
surface at resolution (nu, nv) with at least two samples per direction and
an interval a <= b, pointwise_become_partial produces a buffer of three
nu*nv-point thirds in which, along the chosen axis, only the slices outside
[lower_index, upper_index] are overwritten: slices strictly before the
lower index hold the interpolation of the source's lower index slice and
its successor weighted by the lower residue, slices strictly after the
upper index hold the interpolation of the source's upper index slice and
its successor weighted by the upper residue, and the interior slice is the
source's own; the source surface object itself comes out of the call
unchanged (each of its arrays is copied before the in-place writes). -/
theorem C1_partial_reveal_frame (self smob : Surface) (a b : ℚ) (ax nu nv : ℕ)
    (hax : ax = 0 ∨ ax = 1) (hres : smob.resolution = (nu, nv))
    (hnu : 2 ≤ nu) (hnv : 2 ≤ nv)
    (hlen : smob.points.length = 3 * (nu * nv))
    (hab : a ≤ b) (hslow : ¬(a ≤ 0 ∧ 1 ≤ b)) :
    ( pointwise_become_partial self smob a b (some ax)).points.length =
      3 * (nu * nv) ∧
    sliceSpecAx ax nu nv
      (integer_interpolate 0 ((if ax = 0 then nu else nv) - 1) a).1
      (integer_interpolate 0 ((if ax = 0 then nu else nv) - 1) b).1
      (integer_interpolate 0 ((if ax = 0 then nu else nv) - 1) a).2
      (integer_interpolate 0 ((if ax = 0 then nu else nv) - 1) b).2
      (get_surface_points_and_nudged_points smob.points).1
      (get_surface_points_and_nudged_points
        ( pointwise_become_partial self smob a b (some ax)).points).1 ∧
    sliceSpecAx ax nu nv
      (integer_interpolate 0 ((if ax = 0 then nu else nv) - 1) a).1
      (integer_interpolate 0 ((if ax = 0 then nu else nv) - 1) b).1
      (integer_interpolate 0 ((if ax = 0 then nu else nv) - 1) a).2
      (integer_interpolate 0 ((if ax = 0 then nu else nv) - 1) b).2
      (get_surface_points_and_nudged_points smob.points).2.1
      (get_surface_points_and_nudged_points
        ( pointwise_become_partial self smob a b (some ax)).points).2.1 ∧
    sliceSpecAx ax nu nv
      (integer_interpolate 0 ((if ax = 0 then nu else nv) - 1) a).1
      (integer_interpolate 0 ((if ax = 0 then nu else nv) - 1) b).1
      (integer_interpolate 0 ((if ax = 0 then nu else nv) - 1) a).2
      (integer_interpolate 0 ((if ax = 0 then nu else nv) - 1) b).2
      (get_surface_points_and_nudged_points smob.points).2.2
      (get_surface_points_and_nudged_points
        ( pointwise_become_partial self smob a b (some ax)).points).2.2 ∧
    ( pointwise_become_partial_call (self, smob) a b (some ax)).2 = smob := by
  have h1 : (get_surface_points_and_nudged_points smob.points).1.length =
      nu * nv := by
    simp only [get_surface_points_and_nudged_points, List.length_take, hlen]
    omega
  have h2 : (get_surface_points_and_nudged_points smob.points).2.1.length =
      nu * nv := by
    simp only [get_surface_points_and_nudged_points, List.length_take,
      List.length_drop, hlen]
    omega
  have h3 : (get_surface_points_and_nudged_points smob.points).2.2.length =
      nu * nv := by
    simp only [get_surface_points_and_nudged_points, List.length_drop, hlen]
    omega
  have hbody : ( pointwise_become_partial self smob a b (some ax)).points =
      get_partial_points_array
        (get_surface_points_and_nudged_points smob.points).1 a b (nu, nv, 3) ax ++
      get_partial_points_array
        (get_surface_points_and_nudged_points smob.points).2.1 a b (nu, nv, 3) ax ++
      get_partial_points_array
        (get_surface_points_and_nudged_points smob.points).2.2 a b (nu, nv, 3) ax := by
    unfold pointwise_become_partial
    rw [if_neg hslow, hres]
    rfl
  have hthirds := thirds_of_append _ _ _ (nu * nv)
    (gppa_length _ a b nu nv 3 ax hax h1)
    (gppa_length _ a b nu nv 3 ax hax h2)
    (gppa_length _ a b nu nv 3 ax hax h3)
  refine ⟨?_, ?_, ?_, ?_, rfl⟩
  · rw [hbody]
    simp only [List.length_append, gppa_length _ a b nu nv 3 ax hax h1,
      gppa_length _ a b nu nv 3 ax hax h2, gppa_length _ a b nu nv 3 ax hax h3]
    omega
  · rw [hbody, hthirds]
    exact gppa_spec _ a b nu nv 3 ax hax h1 hnu hnv hab
  · rw [hbody, hthirds]
    exact gppa_spec _ a b nu nv 3 ax hax h2 hnu hnv hab
  · rw [hbody, hthirds]
    exact gppa_spec _ a b nu nv 3 ax hax h3 hnu hnv hab

/-- Witness for C1: a 2x2 source surface, axis 1, interval [0, 1/2]. -/
theorem C1_partial_reveal_frame_witness :
    ((1 : ℕ) = 0 ∨ (1 : ℕ) = 1) ∧
    (Surface.mk (2, 2) 1 (List.replicate 12 [1, 2, 3])).resolution = (2, 2) ∧
    (Surface.mk (2, 2) 1 (List.replicate 12 [1, 2, 3])).points.length =
      3 * (2 * 2) ∧
    (0 : ℚ) ≤ 1 / 2 ∧ ¬((0 : ℚ) ≤ 0 ∧ (1 : ℚ) ≤ 1 / 2) ∧
    (( pointwise_become_partial (Surface.mk (2, 2) 1 [])
        (Surface.mk (2, 2) 1 (List.replicate 12 [1, 2, 3])) 0 (1 / 2)
        (some 1)).points.length = 3 * (2 * 2) ∧
     sliceSpecAx 1 2 2
       (integer_interpolate 0 ((if (1 : ℕ) = 0 then 2 else 2) - 1) 0).1
       (integer_interpolate 0 ((if (1 : ℕ) = 0 then 2 else 2) - 1) (1 / 2)).1
       (integer_interpolate 0 ((if (1 : ℕ) = 0 then 2 else 2) - 1) 0).2
       (integer_interpolate 0 ((if (1 : ℕ) = 0 then 2 else 2) - 1) (1 / 2)).2
       (get_surface_points_and_nudged_points
         (Surface.mk (2, 2) 1 (List.replicate 12 [1, 2, 3])).points).1
       (get_surface_points_and_nudged_points
         ( pointwise_become_partial (Surface.mk (2, 2) 1 [])
           (Surface.mk (2, 2) 1 (List.replicate 12 [1, 2, 3])) 0 (1 / 2)
           (some 1)).points).1 ∧
     sliceSpecAx 1 2 2
       (integer_interpolate 0 ((if (1 : ℕ) = 0 then 2 else 2) - 1) 0).1
       (integer_interpolate 0 ((if (1 : ℕ) = 0 then 2 else 2) - 1) (1 / 2)).1
       (integer_interpolate 0 ((if (1 : ℕ) = 0 then 2 else 2) - 1) 0).2
       (integer_interpolate 0 ((if (1 : ℕ) = 0 then 2 else 2) - 1) (1 / 2)).2
       (get_surface_points_and_nudged_points
         (Surface.mk (2, 2) 1 (List.replicate 12 [1, 2, 3])).points).2.1
       (get_surface_points_and_nudged_points
         ( pointwise_become_partial (Surface.mk (2, 2) 1 [])
           (Surface.mk (2, 2) 1 (List.replicate 12 [1, 2, 3])) 0 (1 / 2)
           (some 1)).points).2.1 ∧
     sliceSpecAx 1 2 2
       (integer_interpolate 0 ((if (1 : ℕ) = 0 then 2 else 2) - 1) 0).1
       (integer_interpolate 0 ((if (1 : ℕ) = 0 then 2 else 2) - 1) (1 / 2)).1
       (integer_interpolate 0 ((if (1 : ℕ) = 0 then 2 else 2) - 1) 0).2
       (integer_interpolate 0 ((if (1 : ℕ) = 0 then 2 else 2) - 1) (1 / 2)).2
       (get_surface_points_and_nudged_points
         (Surface.mk (2, 2) 1 (List.replicate 12 [1, 2, 3])).points).2.2
       (get_surface_points_and_nudged_points
         ( pointwise_become_partial (Surface.mk (2, 2) 1 [])
           (Surface.mk (2, 2) 1 (List.replicate 12 [1, 2, 3])) 0 (1 / 2)
           (some 1)).points).2.2 ∧
     ( pointwise_become_partial_call
        (Surface.mk (2, 2) 1 [],
         Surface.mk (2, 2) 1 (List.replicate 12 [1, 2, 3])) 0 (1 / 2)
        (some 1)).2 = Surface.mk (2, 2) 1 (List.replicate 12 [1, 2, 3])) :=
  ⟨Or.inr rfl, rfl, by decide, by norm_num, by norm_num,
    C1_partial_reveal_frame (Surface.mk (2, 2) 1 [])
      (Surface.mk (2, 2) 1 (List.replicate 12 [1, 2, 3])) 0 (1 / 2) 1 2 2
      (Or.inr rfl) rfl (by norm_num) (by norm_num) (by decide) (by norm_num)
      (by norm_num)⟩

/-- Block p of a flatMap over equal-length blocks. -/
theorem flatMap_block {α : Type _} (σ : List ℕ) (fn : ℕ → List α) (m : ℕ)
    (hm : ∀ p ∈ σ, (fn p).length = m) (p : ℕ) (hp : p < σ.length) :
    ((σ.flatMap fn).drop (m * p)).take m = fn (σ.getD p 0) := by
  induction σ generalizing p with
  | nil => simp at hp
  | cons x xs ih =>
    rw [List.flatMap_cons]
    cases p with
    | zero =>
      rw [Nat.mul_zero, List.drop_zero,
        show (fn x ++ xs.flatMap fn).take m = fn x from
          List.take_left' (hm x (by simp))]
      simp
    | succ p =>
      have hxs : ∀ q ∈ xs, (fn q).length = m := fun q hq => hm q (by simp [hq])
      have hdrop : (fn x ++ xs.flatMap fn).drop (m * (p + 1)) =
          (xs.flatMap fn).drop (m * p) := by
        have hmp : m * (p + 1) = (fn x).length + m * p := by
          rw [hm x (by simp)]
          ring
        rw [hmp, List.drop_append]
      rw [hdrop, ih hxs p (by simpa using hp)]
      simp

/-- The triangle groups of the sorted buffer are the groups of the source
buffer taken in sorted-position order. -/
theorem triangleGroups_sort (points : List Vec) (tri_is : List ℕ) (vect : Vec)
    (n : ℕ) (hlen : tri_is.length = 3 * n) :
    triangleGroups (sort_faces_back_to_front points tri_is vect) =
      (triangle_sort_order points tri_is vect).map
        (fun p => (tri_is.drop (3 * p)).take 3) := by
  have hn3 : tri_is.length / 3 = n := by omega
  have hσlen : (triangle_sort_order points tri_is vect).length = n := by
    unfold triangle_sort_order
    rw [List.length_mergeSort, List.length_range, hn3]
  have hσmem : ∀ p ∈ triangle_sort_order points tri_is vect, p < n := by
    intro p hp
    unfold triangle_sort_order at hp
    have hm := (List.mergeSort_perm (List.range (tri_is.length / 3)) _).mem_iff.mp hp
    rw [List.mem_range, hn3] at hm
    exact hm
  have hblocks : ∀ p ∈ triangle_sort_order points tri_is vect,
      ((tri_is.drop (3 * p)).take 3).length = 3 := by
    intro p hp
    rw [List.length_take, List.length_drop, hlen]
    have := hσmem p hp
    omega
  have houtlen : (sort_faces_back_to_front points tri_is vect).length = n * 3 := by
    unfold sort_faces_back_to_front
    rw [flatMap_length_const _ _ 3 hblocks, hσlen]
  unfold triangleGroups
  rw [houtlen, show n * 3 / 3 = n by omega]
  apply List.ext_getElem
  · rw [List.length_map, List.length_range, List.length_map, hσlen]
  · intro t h1 h2
    rw [List.getElem_map, List.getElem_range, List.getElem_map]
    unfold sort_faces_back_to_front
    have ht : t < (triangle_sort_order points tri_is vect).length := by
      rw [List.length_map, hσlen] at h2
      rw [hσlen]
      exact h2
    rw [show (3 : ℕ) * t = 3 * t from rfl]
    have hblk := flatMap_block (triangle_sort_order points tri_is vect)
      (fun p => (tri_is.drop (3 * p)).take 3) 3 hblocks t ht
    rw [show (3 : ℕ) * t = 3 * t from rfl] at hblk
    rw [hblk, List.getD_eq_getElem _ _ ht]

/-- Claim C5: sort_faces_back_to_front reorders the triangles as whole
3-index groups (each group's internal order preserved, the groups a
permutation of the original groups), into ascending order of the key
dot(first-vertex position, view direction); and the underlying position
sort is stable: positions p < q with equal keys appear in the sorted
position list in their original relative order. -/
theorem C5_sort_faces (points : List Vec) (tri_is : List ℕ) (vect : Vec)
    (n : ℕ) (hlen : tri_is.length = 3 * n) :
    (triangleGroups (sort_faces_back_to_front points tri_is vect)).Perm
      (triangleGroups tri_is) ∧
    (triangleGroups (sort_faces_back_to_front points tri_is vect)).Pairwise
      (fun t t' => dot (points.getD (t.getD 0 0) []) vect ≤
        dot (points.getD (t'.getD 0 0) []) vect) ∧
    (∀ p q, p < q → q < n →
      index_dot points tri_is vect p = index_dot points tri_is vect q →
      [p, q].Sublist (triangle_sort_order points tri_is vect)) := by
  have hn3 : tri_is.length / 3 = n := by omega
  have htrans : ∀ x y z : ℕ,
      decide (index_dot points tri_is vect x ≤ index_dot points tri_is vect y) = true →
      decide (index_dot points tri_is vect y ≤ index_dot points tri_is vect z) = true →
      decide (index_dot points tri_is vect x ≤ index_dot points tri_is vect z) = true := by
    intro x y z hxy hyz
    rw [decide_eq_true_iff] at hxy hyz ⊢
    exact le_trans hxy hyz
  have htotal : ∀ x y : ℕ,
      (decide (index_dot points tri_is vect x ≤ index_dot points tri_is vect y) ||
       decide (index_dot points tri_is vect y ≤ index_dot points tri_is vect x)) = true := by
    intro x y
    simp only [Bool.or_eq_true, decide_eq_true_iff]
    exact le_total _ _
  have hσmem : ∀ p ∈ triangle_sort_order points tri_is vect, p < n := by
    intro p hp
    unfold triangle_sort_order at hp
    have hm := (List.mergeSort_perm (List.range (tri_is.length / 3)) _).mem_iff.mp hp
    rw [List.mem_range, hn3] at hm
    exact hm
  have hgroups : triangleGroups tri_is =
      (List.range n).map (fun p => (tri_is.drop (3 * p)).take 3) := by
    unfold triangleGroups
    rw [hlen, show 3 * n / 3 = n by omega]
  refine ⟨?_, ?_, ?_⟩
  · rw [triangleGroups_sort points tri_is vect n hlen, hgroups]
    apply List.Perm.map
    unfold triangle_sort_order
    rw [hn3]
    exact List.mergeSort_perm _ _
  · rw [triangleGroups_sort points tri_is vect n hlen, List.pairwise_map]
    have hsorted : (triangle_sort_order points tri_is vect).Pairwise
        (fun p q =>
          decide (index_dot points tri_is vect p ≤ index_dot points tri_is vect q) = true) := by
      unfold triangle_sort_order
      exact List.sorted_mergeSort htrans htotal (List.range (tri_is.length / 3))
    apply List.Pairwise.imp_of_mem ?_ hsorted
    intro p q hp hq hle
    rw [decide_eq_true_iff] at hle
    have hkey : ∀ r, r < n →
        dot (points.getD (((tri_is.drop (3 * r)).take 3).getD 0 0) []) vect =
          index_dot points tri_is vect r := by
      intro r hr
      unfold index_dot
      have h3r : 3 * r < tri_is.length := by omega
      have hidx : ((tri_is.drop (3 * r)).take 3).getD 0 0 = tri_is.getD (3 * r) 0 := by
        rw [List.getD_eq_getElem ((tri_is.drop (3 * r)).take 3) 0
            (by rw [List.length_take, List.length_drop]; omega),
          List.getElem_take, List.getElem_drop,
          List.getD_eq_getElem tri_is 0 h3r]
        simp
      rw [hidx]
    rw [hkey p (hσmem p hp), hkey q (hσmem q hq)]
    exact hle
  · intro p q hpq hqn hkeys
    have hsub1 : [p, q].Sublist (List.range n) := by
      have h1 : [p].Sublist (List.range q) :=
        List.singleton_sublist.mpr (List.mem_range.mpr hpq)
      have h2 : ([p] ++ [q]).Sublist (List.range q ++ [q]) :=
        h1.append (List.Sublist.refl [q])
      rw [← List.range_succ] at h2
      exact h2.trans (List.range_sublist.mpr (by omega))
    have hpair : ([p, q] : List ℕ).Pairwise (fun x y =>
        decide (index_dot points tri_is vect x ≤ index_dot points tri_is vect y) = true) := by
      rw [List.pairwise_pair, decide_eq_true_iff]
      exact le_of_eq hkeys
    unfold triangle_sort_order
    rw [hn3]
    exact List.sublist_mergeSort htrans htotal hpair hsub1

/-- Witness for C5: two triangles over a two-point buffer, keys 1 and 0
along the view direction (1). -/
theorem C5_sort_faces_witness :
    ([0, 0, 0, 1, 1, 1] : List ℕ).length = 3 * 2 ∧
    ((triangleGroups
        (sort_faces_back_to_front [[1], [0]] [0, 0, 0, 1, 1, 1] [1])).Perm
      (triangleGroups [0, 0, 0, 1, 1, 1]) ∧
     (triangleGroups
        (sort_faces_back_to_front [[1], [0]] [0, 0, 0, 1, 1, 1] [1])).Pairwise
      (fun t t' => dot ([[1], [0]].getD (t.getD 0 0) []) [1] ≤
        dot ([[1], [0]].getD (t'.getD 0 0) []) [1]) ∧
     (∀ p q, p < q → q < 2 →
       index_dot [[1], [0]] [0, 0, 0, 1, 1, 1] [1] p =
         index_dot [[1], [0]] [0, 0, 0, 1, 1, 1] [1] q →
       [p, q].Sublist (triangle_sort_order [[1], [0]] [0, 0, 0, 1, 1, 1] [1]))) :=
  ⟨rfl, C5_sort_faces [[1], [0]] [0, 0, 0, 1, 1, 1] [1] 2 rfl⟩
